import Mathlib

/-!
Shallow embedding of `src/include/Lightning/support/make_figure.py` from the
Lightning repository: the binary chart-stream decoder and the matplotlib
render driver it feeds, modelled over byte lists.

A byte stream is a `List Nat` (each entry one byte, 0..255).  `float64`
values are kept as their raw 8-byte little-endian bit patterns (a `Nat`);
no claim needs float arithmetic.  Reading `file.read(k)` at end of file
returns the empty bytestring, so `get_cstring` at EOF loops forever in the
Python source; the model marks that branch `hang`.  Python exceptions
(failed `assert`, `UnicodeDecodeError`, tuple-unpack errors, `IndexError`
and `TypeError` from numpy, duplicate-keyword `TypeError`) are collapsed
into the single marker `exn`; `return False` taken at an invalid tag or
option-type byte is `invalid`, the final `return False` for an empty save
path is `notSaved`, and `return True` is `saved`.
-/

namespace Lightning

/-- Little-endian byte list to natural number, first byte least significant. -/
def bytesToNat : List Nat → Nat
  | [] => 0
  | b :: r => b + 256 * bytesToNat r

/-- Split a byte list into consecutive 8-byte little-endian float64 bit
patterns, discarding a trailing incomplete group, as `np.fromfile` keeps
only the complete items it managed to read. -/
def chunk8 : List Nat → List Nat
  | b0 :: b1 :: b2 :: b3 :: b4 :: b5 :: b6 :: b7 :: t =>
      bytesToNat [b0, b1, b2, b3, b4, b5, b6, b7] :: chunk8 t
  | _ => []

/-- One continuation byte of a UTF-8 sequence, `0x80..0xBF`. -/
def contB (c : Nat) : Bool := decide (0x80 ≤ c ∧ c ≤ 0xBF)

/-- Strict UTF-8 validity check (CPython's `bytes.decode` behaviour:
rejects overlong forms, surrogates and values above `U+10FFFF`), with
explicit fuel; the fuel is at least the list length at every call site. -/
def utf8OkF : Nat → List Nat → Bool
  | _, [] => true
  | 0, _ :: _ => false
  | fuel + 1, b :: r =>
    if b < 0x80 then utf8OkF fuel r
    else if b < 0xC2 then false
    else if b ≤ 0xDF then
      match r with
      | c1 :: r1 => contB c1 && utf8OkF fuel r1
      | [] => false
    else if b ≤ 0xEF then
      match r with
      | c1 :: c2 :: r2 =>
        (if b = 0xE0 then decide (0xA0 ≤ c1 ∧ c1 ≤ 0xBF)
         else if b = 0xED then decide (0x80 ≤ c1 ∧ c1 ≤ 0x9F)
         else contB c1) && contB c2 && utf8OkF fuel r2
      | _ => false
    else if b ≤ 0xF4 then
      match r with
      | c1 :: c2 :: c3 :: r3 =>
        (if b = 0xF0 then decide (0x90 ≤ c1 ∧ c1 ≤ 0xBF)
         else if b = 0xF4 then decide (0x80 ≤ c1 ∧ c1 ≤ 0x8F)
         else contB c1) && contB c2 && contB c3 && utf8OkF fuel r3
      | _ => false
    else false

/-- A byte list decodes as UTF-8 (what `bytearray.decode` requires). -/
def utf8Ok (l : List Nat) : Bool := utf8OkF l.length l

/-- `get_cstring`: read bytes until a null byte, returning the collected
bytes and the remaining stream.  `none` models the source's behaviour when
the stream ends before a null byte is found: `file.read(1)` returns `b''`
forever and the `while True` loop never terminates. -/
def get_cstring : List Nat → Option (List Nat × List Nat)
  | [] => none
  | b :: r =>
    if b = 0 then some ([], r)
    else
      match get_cstring r with
      | none => none
      | some (bs, rest) => some (b :: bs, rest)

/-- A typed option value: `S` string, `I` integer, `D` float64 bits. -/
inductive OptVal where
  | str (s : List Nat)
  | int (n : Int)
  | float (bits : Nat)
deriving DecidableEq

/-- The `arguments` dictionary: insertion-ordered keys (UTF-8 byte lists)
with in-place overwrite, as a Python `dict`. -/
abbrev OptDict := List (List Nat × OptVal)

/-- Key membership in the `arguments` dictionary. -/
def dictHasKey (d : OptDict) (k : List Nat) : Bool :=
  d.any fun p => decide (p.1 = k)

/-- `arguments[k] = v`: overwrite in place if present, else append. -/
def dictSet (d : OptDict) (k : List Nat) (v : OptVal) : OptDict :=
  if dictHasKey d k then d.map (fun p => if p.1 = k then (k, v) else p)
  else d ++ [(k, v)]

/-- The UTF-8 bytes of the keyword names that collide with explicitly
passed arguments of the matplotlib calls. -/
def labelKey : List Nat := [108, 97, 98, 101, 108]

/-- Bytes of `x`, bound positionally in `plt.scatter` and `plt.errorbar`. -/
def xKey : List Nat := [120]

/-- Bytes of `y`, bound positionally in `plt.scatter` and `plt.errorbar`. -/
def yKey : List Nat := [121]

/-- Bytes of `yerr`, passed explicitly in `plt.errorbar`. -/
def yerrKey : List Nat := [121, 101, 114, 114]

/-- One call issued to the matplotlib backend. -/
inductive Call where
  | figure (w h : Nat)
  | xlabel (s : List Nat)
  | ylabel (s : List Nat)
  | title (s : List Nat)
  | plot (x y : List Nat) (label : Option (List Nat)) (opts : OptDict)
  | scatter (x y : List Nat) (label : Option (List Nat)) (opts : OptDict)
  | errorbar (x y yerr : List Nat) (label : Option (List Nat)) (opts : OptDict)
  | legend
  | savefig (path : List Nat)
deriving DecidableEq

/-- Decoder state inside `make_image`: the current `arguments` accumulator
and the backend calls made so far. -/
structure St where
  arguments : OptDict
  trace : List Call
deriving DecidableEq

/-- How a tag loop ended: clean end of stream at a tag boundary, a
`return False` on an invalid byte, a Python exception, or the
never-terminating `get_cstring` loop. -/
inductive LoopEnd where
  | clean
  | invalid
  | exn
  | hang
deriving DecidableEq

/-- Result of running a tag loop. -/
structure RunOut where
  fin : LoopEnd
  st : St
deriving DecidableEq

/-- Result of processing one plotting-phase record. -/
inductive StepRes where
  | cont (st : St) (rest : List Nat)
  | stop (fin : LoopEnd) (st : St)
deriving DecidableEq

/-- The `P` branch: uint64 count, two float64 arrays, label, `plt.plot`.
With fewer than 8 bytes for the count, `np.fromfile` yields an empty array
and `count=size` raises.  `plt.plot(x, y, label=label, **arguments)`
raises `TypeError` when `arguments` also holds the key `label`. -/
def pstepP (s : List Nat) (st : St) : StepRes :=
  if s.length < 8 then .stop .exn st
  else
    let n := bytesToNat (s.take 8)
    let s1 := s.drop 8
    let x := chunk8 (s1.take (8 * n))
    let s2 := s1.drop (8 * n)
    let y := chunk8 (s2.take (8 * n))
    let s3 := s2.drop (8 * n)
    match get_cstring s3 with
    | none => .stop .hang st
    | some (lbl, s4) =>
      if utf8Ok lbl then
        if 0 < lbl.length then
          if dictHasKey st.arguments labelKey then .stop .exn st
          else .cont ⟨st.arguments, st.trace ++ [.plot x y (some lbl) st.arguments]⟩ s4
        else .cont ⟨st.arguments, st.trace ++ [.plot x y none st.arguments]⟩ s4
      else .stop .exn st

/-- The `S` branch: like `P` but `plt.scatter(x, y, ...)` binds `x` and
`y` as named parameters, so option keys `x` or `y` also collide. -/
def pstepS (s : List Nat) (st : St) : StepRes :=
  if s.length < 8 then .stop .exn st
  else
    let n := bytesToNat (s.take 8)
    let s1 := s.drop 8
    let x := chunk8 (s1.take (8 * n))
    let s2 := s1.drop (8 * n)
    let y := chunk8 (s2.take (8 * n))
    let s3 := s2.drop (8 * n)
    match get_cstring s3 with
    | none => .stop .hang st
    | some (lbl, s4) =>
      if utf8Ok lbl then
        if 0 < lbl.length then
          if dictHasKey st.arguments xKey || dictHasKey st.arguments yKey ||
              dictHasKey st.arguments labelKey then .stop .exn st
          else .cont ⟨st.arguments, st.trace ++ [.scatter x y (some lbl) st.arguments]⟩ s4
        else
          if dictHasKey st.arguments xKey || dictHasKey st.arguments yKey then .stop .exn st
          else .cont ⟨st.arguments, st.trace ++ [.scatter x y none st.arguments]⟩ s4
      else .stop .exn st

/-- The `E` branch: three arrays sharing the one count, then
`plt.errorbar(x, y, yerr=yerr, ...)`; keys `x`, `y`, `yerr` collide. -/
def pstepE (s : List Nat) (st : St) : StepRes :=
  if s.length < 8 then .stop .exn st
  else
    let n := bytesToNat (s.take 8)
    let s1 := s.drop 8
    let x := chunk8 (s1.take (8 * n))
    let s2 := s1.drop (8 * n)
    let y := chunk8 (s2.take (8 * n))
    let s3 := s2.drop (8 * n)
    let z := chunk8 (s3.take (8 * n))
    let s4 := s3.drop (8 * n)
    match get_cstring s4 with
    | none => .stop .hang st
    | some (lbl, s5) =>
      if utf8Ok lbl then
        if 0 < lbl.length then
          if dictHasKey st.arguments xKey || dictHasKey st.arguments yKey ||
              dictHasKey st.arguments yerrKey || dictHasKey st.arguments labelKey then
            .stop .exn st
          else .cont ⟨st.arguments, st.trace ++ [.errorbar x y z (some lbl) st.arguments]⟩ s5
        else
          if dictHasKey st.arguments xKey || dictHasKey st.arguments yKey ||
              dictHasKey st.arguments yerrKey then .stop .exn st
          else .cont ⟨st.arguments, st.trace ++ [.errorbar x y z none st.arguments]⟩ s5
      else .stop .exn st

/-- The `O` branch: null-terminated name, one type byte, typed payload.
An unknown type byte (including the empty read at EOF) is `return False`;
`int.from_bytes` accepts fewer than 4 bytes, while the float read needs 8
complete bytes or `[0]` raises `IndexError`. -/
def pstepO (s : List Nat) (st : St) : StepRes :=
  match get_cstring s with
  | none => .stop .hang st
  | some (name, s1) =>
    if utf8Ok name then
      match s1 with
      | [] => .stop .invalid st
      | t :: s2 =>
        if 128 ≤ t then .stop .exn st
        else if t = 83 then
          match get_cstring s2 with
          | none => .stop .hang st
          | some (v, s3) =>
            if utf8Ok v then .cont ⟨dictSet st.arguments name (.str v), st.trace⟩ s3
            else .stop .exn st
        else if t = 73 then
          .cont ⟨dictSet st.arguments name (.int (bytesToNat (s2.take 4))), st.trace⟩ (s2.drop 4)
        else if t = 68 then
          if s2.length < 8 then .stop .exn st
          else .cont ⟨dictSet st.arguments name (.float (bytesToNat (s2.take 8))), st.trace⟩ (s2.drop 8)
        else .stop .invalid st
    else .stop .exn st

/-- Dispatch one plotting-phase record on its tag byte: `P` `S` `E` `O`
`R`, any other byte is `return False`. -/
def plotStep (b : Nat) (s : List Nat) (st : St) : StepRes :=
  if b = 80 then pstepP s st
  else if b = 83 then pstepS s st
  else if b = 69 then pstepE s st
  else if b = 79 then pstepO s st
  else if b = 82 then .cont ⟨[], st.trace⟩ s
  else .stop .invalid st

/-- The plotting `while byte_s:` loop with explicit fuel.  Each iteration
dispatches on the already-read tag byte `b`, then reads the next tag; the
zero-fuel branch is never reached when the fuel exceeds the stream
length.  A byte at a tag position that is no single-byte UTF-8 character
raises in `f.read(1).decode('utf-8')`. -/
def plotLoopF : Nat → Nat → List Nat → St → RunOut
  | 0, _, _, st => ⟨.hang, st⟩
  | fuel + 1, b, s, st =>
    match plotStep b s st with
    | .stop f st' => ⟨f, st'⟩
    | .cont st' rest =>
      match rest with
      | [] => ⟨.clean, st'⟩
      | t :: r => if t < 128 then plotLoopF fuel t r st' else ⟨.exn, st'⟩

/-- The plotting loop entered at tag `b` with remaining stream `s`. -/
def plotLoop (b : Nat) (s : List Nat) (st : St) : RunOut :=
  plotLoopF (s.length + 1) b s st

/-- The labels `while byte_s:` loop with explicit fuel: `X` `Y` `T` set a
label when their payload is non-empty and continue; any other byte breaks
out and that same byte enters the plotting loop unchanged. -/
def labelsLoopF : Nat → Nat → List Nat → St → RunOut
  | 0, _, _, st => ⟨.hang, st⟩
  | fuel + 1, b, s, st =>
    if b = 88 ∨ b = 89 ∨ b = 84 then
      match get_cstring s with
      | none => ⟨.hang, st⟩
      | some (lbl, rest) =>
        if utf8Ok lbl then
          let st' : St :=
            if 0 < lbl.length then
              ⟨st.arguments, st.trace ++
                [if b = 88 then Call.xlabel lbl else if b = 89 then Call.ylabel lbl
                 else Call.title lbl]⟩
            else st
          match rest with
          | [] => ⟨.clean, st'⟩
          | t :: r => if t < 128 then labelsLoopF fuel t r st' else ⟨.exn, st'⟩
        else ⟨.exn, st⟩
    else plotLoop b s st

/-- The labels loop entered at tag `b` with remaining stream `s`. -/
def labelsLoop (b : Nat) (s : List Nat) (st : St) : RunOut :=
  labelsLoopF (s.length + 1) b s st

/-- Overall result of `make_image`: `saved` and `notSaved` are the
source's `return True` / final `return False`, `invalid` its early
`return False`, `exn` a raised exception, `hang` the non-terminating
`get_cstring` loop. -/
inductive Outcome where
  | saved
  | notSaved
  | invalid
  | exn
  | hang
deriving DecidableEq

/-- The Python return value an outcome corresponds to (`none`: the call
never returns normally). -/
def pyReturn : Outcome → Option Bool
  | .saved => some true
  | .notSaved => some false
  | .invalid => some false
  | .exn => none
  | .hang => none

/-- What a run of `make_image` produced: the outcome, the save path once
it has been read (`none` before that point), and the backend calls. -/
structure DecodeOut where
  outcome : Outcome
  localPath : Option (List Nat)
  trace : List Call
deriving DecidableEq

/-- The code after the `with` block: save only for a non-empty path
(`plt.legend()` then `plt.savefig(...)`, `return True`), else
`return False`; loop failures propagate unchanged. -/
def finishImage (path : List Nat) (r : RunOut) : DecodeOut :=
  match r.fin with
  | .clean =>
    if 0 < path.length then
      ⟨.saved, some path, r.st.trace ++ [.legend, .savefig path]⟩
    else ⟨.notSaved, some path, r.st.trace⟩
  | .invalid => ⟨.invalid, some path, r.st.trace⟩
  | .exn => ⟨.exn, some path, r.st.trace⟩
  | .hang => ⟨.hang, some path, r.st.trace⟩

/-- `make_image`: header tag `s` with the save path, mandatory `D` with
two float64 dimensions (fewer than 16 remaining bytes leaves fewer than
two array items and the tuple unpacking raises), then the labels loop and
the plotting loop, then the save section. -/
def make_image (s : List Nat) : DecodeOut :=
  match s with
  | [] => ⟨.exn, none, []⟩
  | b :: r =>
    if 128 ≤ b then ⟨.exn, none, []⟩
    else if b = 115 then
      match get_cstring r with
      | none => ⟨.hang, none, []⟩
      | some (path, r1) =>
        if utf8Ok path then
          match r1 with
          | [] => ⟨.exn, some path, []⟩
          | c :: r2 =>
            if 128 ≤ c then ⟨.exn, some path, []⟩
            else if c = 68 then
              if r2.length < 16 then ⟨.exn, some path, []⟩
              else
                match r2.drop 16 with
                | [] =>
                  finishImage path ⟨.clean,
                    ⟨[], [.figure (bytesToNat (r2.take 8)) (bytesToNat ((r2.drop 8).take 8))]⟩⟩
                | t :: r4 =>
                  if t < 128 then
                    finishImage path (labelsLoop t r4
                      ⟨[], [.figure (bytesToNat (r2.take 8)) (bytesToNat ((r2.drop 8).take 8))]⟩)
                  else ⟨.exn, some path,
                    [.figure (bytesToNat (r2.take 8)) (bytesToNat ((r2.drop 8).take 8))]⟩
            else ⟨.exn, some path, []⟩
        else ⟨.exn, none, []⟩
    else ⟨.exn, none, []⟩

/-- Calls that the two tag loops can issue; `legend` and `savefig` are
issued only by the save section after the loops. -/
def isLoopCall : Call → Bool
  | .legend => false
  | .savefig _ => false
  | _ => true

/-- The per-series length invariant: the arrays of one draw call have
equal lengths. -/
def lensOk : Call → Bool
  | .plot x y _ _ => x.length == y.length
  | .scatter x y _ _ => x.length == y.length
  | .errorbar x y z _ _ => x.length == y.length && y.length == z.length
  | _ => true

/-- Whether a draw call carries a non-empty explicit label. -/
def hasNonemptyLabel : Call → Bool
  | .plot _ _ (some l) _ => !l.isEmpty
  | .scatter _ _ (some l) _ => !l.isEmpty
  | .errorbar _ _ _ (some l) _ => !l.isEmpty
  | _ => false

/-- A trace made only of loop calls that satisfy the length invariant. -/
def goodTrace (u : List Call) : Prop :=
  ∀ c ∈ u, isLoopCall c = true ∧ lensOk c = true

/-- Structural invariant of every `make_image` result: the trace is a good
trace, followed by `legend` and `savefig` exactly in the `saved` case,
which moreover requires a non-empty decoded save path. -/
def MasterShape (d : DecodeOut) : Prop :=
  ∃ u, goodTrace u ∧
    ((∃ p, d.outcome = .saved ∧ d.localPath = some p ∧ 0 < p.length ∧
        d.trace = u ++ [Call.legend, Call.savefig p]) ∨
      (d.outcome ≠ .saved ∧ d.trace = u))

/-- A well-formed typed payload for an `O` record: type byte `S` with a
null-terminated valid string, `I` with 4 bytes, or `D` with 8 bytes. -/
def optPayloadOk (ty : Nat) (payload : List Nat) : Prop :=
  (ty = 83 ∧ ∃ v, payload = v ++ [0] ∧ (0 : Nat) ∉ v ∧ utf8Ok v = true) ∨
  (ty = 73 ∧ payload.length = 4) ∨
  (ty = 68 ∧ payload.length = 8)

/-- The byte encoding of a sequence of label records, each a tag byte
followed by a null-terminated payload. -/
def labelRecBytes : List (Nat × List Nat) → List Nat
  | [] => []
  | (tag, pl) :: rs => tag :: (pl ++ 0 :: labelRecBytes rs)

/-- Well-formed label records: each tag is `X`, `Y` or `T` and each
payload is a valid null-free UTF-8 byte string. -/
def labelRecOk (recs : List (Nat × List Nat)) : Prop :=
  ∀ r ∈ recs, (r.1 = 88 ∨ r.1 = 89 ∨ r.1 = 84) ∧ (0 : Nat) ∉ r.2 ∧ utf8Ok r.2 = true

/-- `n` zero bytes. -/
def zs (n : Nat) : List Nat := List.replicate n 0

/-- Stream for claim C1: header, save path `p`, dimensions, then a `P`
record declaring `n = 5` but holding only 3 float64 values. -/
def exC1 : List Nat :=
  115 :: 112 :: 0 :: 68 :: zs 16 ++ 80 :: [5, 0, 0, 0, 0, 0, 0, 0] ++ zs 24

/-- Stream for claim C2: the `s` tag whose null-terminated save path
never reaches a null byte. -/
def exC2 : List Nat := [115]

/-- Stream for claim C3: save path `p`, dimensions, one `P` series with
`n = 0` and an empty label, clean end of stream. -/
def exC3 : List Nat := 115 :: 112 :: 0 :: 68 :: zs 16 ++ 80 :: zs 8 ++ [0]

/-- Stream for claim C4: empty save path, dimensions, an `O` record named
`c` of type `I` with payload `FF FF FF FF`, then a `P` series with
`n = 0` and an empty label so the captured option is observable. -/
def exC4 : List Nat :=
  115 :: 0 :: 68 :: zs 16 ++ 79 :: 99 :: 0 :: 73 :: [255, 255, 255, 255] ++ 80 :: zs 8 ++ [0]

/-- Stream for claim C7: header, save path `p`, dimensions, an `R`
record, then the byte `0xFF` at the next plotting-phase tag position. -/
def exC7 : List Nat := 115 :: 112 :: 0 :: 68 :: zs 16 ++ [82, 255]

theorem get_cstring_append {pre : List Nat} (rest : List Nat) (h : (0 : Nat) ∉ pre) :
    get_cstring (pre ++ 0 :: rest) = some (pre, rest) := by
  induction pre with
  | nil => simp [get_cstring]
  | cons b bs ih =>
    simp only [List.mem_cons, not_or] at h
    have hb : ¬ b = 0 := fun hb => h.1 hb.symm
    simp [get_cstring, hb, ih h.2]

theorem get_cstring_some_len {s bs r : List Nat} (h : get_cstring s = some (bs, r)) :
    r.length < s.length := by
  induction s generalizing bs r with
  | nil => simp [get_cstring] at h
  | cons b t ih =>
    simp only [get_cstring] at h
    split at h
    · simp only [Option.some.injEq, Prod.mk.injEq] at h
      obtain ⟨h1, h2⟩ := h
      subst h2
      simp
    · cases hm : get_cstring t with
      | none => rw [hm] at h; cases h
      | some p =>
        obtain ⟨bs2, r2⟩ := p
        rw [hm] at h
        simp only [Option.some.injEq, Prod.mk.injEq] at h
        obtain ⟨h1, h2⟩ := h
        subst h2
        have := ih hm
        simp only [List.length_cons]
        omega

theorem chunk8_length : ∀ l : List Nat, (chunk8 l).length = l.length / 8
  | [] => by simp [chunk8]
  | [b0] => by simp [chunk8]
  | [b0, b1] => by simp [chunk8]
  | [b0, b1, b2] => by simp [chunk8]
  | [b0, b1, b2, b3] => by simp [chunk8]
  | [b0, b1, b2, b3, b4] => by simp [chunk8]
  | [b0, b1, b2, b3, b4, b5] => by simp [chunk8]
  | [b0, b1, b2, b3, b4, b5, b6] => by simp [chunk8]
  | b0 :: b1 :: b2 :: b3 :: b4 :: b5 :: b6 :: b7 :: t => by
    have ih := chunk8_length t
    simp [chunk8, ih]
    omega

theorem pstepP_stop {s : List Nat} {st : St} {f : LoopEnd} {st' : St}
    (h : pstepP s st = .stop f st') : st' = st := by
  unfold pstepP at h
  by_cases hlen : s.length < 8
  · rw [if_pos hlen] at h; cases h; rfl
  rw [if_neg hlen] at h
  simp only [] at h
  cases hg : get_cstring (((s.drop 8).drop (8 * bytesToNat (s.take 8))).drop
      (8 * bytesToNat (s.take 8))) with
  | none => rw [hg] at h; simp only [] at h; cases h; rfl
  | some p =>
    obtain ⟨lbl, s4⟩ := p
    rw [hg] at h
    simp only [] at h
    repeat' split at h
    all_goals first | (cases h; rfl) | cases h

theorem pstepP_cont {s : List Nat} {st st' : St} {rest : List Nat}
    (h : pstepP s st = .cont st' rest) :
    rest.length ≤ s.length ∧
      ∃ t, st'.trace = st.trace ++ t ∧ ∀ c ∈ t, isLoopCall c = true ∧ lensOk c = true := by
  unfold pstepP at h
  by_cases hlen : s.length < 8
  · rw [if_pos hlen] at h; cases h
  rw [if_neg hlen] at h
  simp only [] at h
  cases hg : get_cstring (((s.drop 8).drop (8 * bytesToNat (s.take 8))).drop
      (8 * bytesToNat (s.take 8))) with
  | none => rw [hg] at h; simp only [] at h; cases h
  | some p =>
    obtain ⟨lbl, s4⟩ := p
    rw [hg] at h
    simp only [] at h
    have hl := get_cstring_some_len hg
    simp only [List.length_drop] at hl
    repeat' split at h
    all_goals try cases h
    all_goals constructor
    all_goals try omega
    all_goals refine ⟨_, rfl, ?_⟩
    all_goals intro c hc
    all_goals simp only [List.mem_singleton] at hc
    all_goals subst hc
    all_goals refine ⟨rfl, ?_⟩
    all_goals simp only [lensOk, chunk8_length, List.length_take, List.length_drop,
      beq_iff_eq, Bool.and_eq_true]
    all_goals omega

theorem pstepS_stop {s : List Nat} {st : St} {f : LoopEnd} {st' : St}
    (h : pstepS s st = .stop f st') : st' = st := by
  unfold pstepS at h
  by_cases hlen : s.length < 8
  · rw [if_pos hlen] at h; cases h; rfl
  rw [if_neg hlen] at h
  simp only [] at h
  cases hg : get_cstring (((s.drop 8).drop (8 * bytesToNat (s.take 8))).drop
      (8 * bytesToNat (s.take 8))) with
  | none => rw [hg] at h; simp only [] at h; cases h; rfl
  | some p =>
    obtain ⟨lbl, s4⟩ := p
    rw [hg] at h
    simp only [] at h
    repeat' split at h
    all_goals first | (cases h; rfl) | cases h

theorem pstepS_cont {s : List Nat} {st st' : St} {rest : List Nat}
    (h : pstepS s st = .cont st' rest) :
    rest.length ≤ s.length ∧
      ∃ t, st'.trace = st.trace ++ t ∧ ∀ c ∈ t, isLoopCall c = true ∧ lensOk c = true := by
  unfold pstepS at h
  by_cases hlen : s.length < 8
  · rw [if_pos hlen] at h; cases h
  rw [if_neg hlen] at h
  simp only [] at h
  cases hg : get_cstring (((s.drop 8).drop (8 * bytesToNat (s.take 8))).drop
      (8 * bytesToNat (s.take 8))) with
  | none => rw [hg] at h; simp only [] at h; cases h
  | some p =>
    obtain ⟨lbl, s4⟩ := p
    rw [hg] at h
    simp only [] at h
    have hl := get_cstring_some_len hg
    simp only [List.length_drop] at hl
    repeat' split at h
    all_goals try cases h
    all_goals constructor
    all_goals try omega
    all_goals refine ⟨_, rfl, ?_⟩
    all_goals intro c hc
    all_goals simp only [List.mem_singleton] at hc
    all_goals subst hc
    all_goals refine ⟨rfl, ?_⟩
    all_goals simp only [lensOk, chunk8_length, List.length_take, List.length_drop,
      beq_iff_eq, Bool.and_eq_true]
    all_goals omega

theorem pstepE_stop {s : List Nat} {st : St} {f : LoopEnd} {st' : St}
    (h : pstepE s st = .stop f st') : st' = st := by
  unfold pstepE at h
  by_cases hlen : s.length < 8
  · rw [if_pos hlen] at h; cases h; rfl
  rw [if_neg hlen] at h
  simp only [] at h
  cases hg : get_cstring ((((s.drop 8).drop (8 * bytesToNat (s.take 8))).drop
      (8 * bytesToNat (s.take 8))).drop (8 * bytesToNat (s.take 8))) with
  | none => rw [hg] at h; simp only [] at h; cases h; rfl
  | some p =>
    obtain ⟨lbl, s5⟩ := p
    rw [hg] at h
    simp only [] at h
    repeat' split at h
    all_goals first | (cases h; rfl) | cases h

theorem pstepE_cont {s : List Nat} {st st' : St} {rest : List Nat}
    (h : pstepE s st = .cont st' rest) :
    rest.length ≤ s.length ∧
      ∃ t, st'.trace = st.trace ++ t ∧ ∀ c ∈ t, isLoopCall c = true ∧ lensOk c = true := by
  unfold pstepE at h
  by_cases hlen : s.length < 8
  · rw [if_pos hlen] at h; cases h
  rw [if_neg hlen] at h
  simp only [] at h
  cases hg : get_cstring ((((s.drop 8).drop (8 * bytesToNat (s.take 8))).drop
      (8 * bytesToNat (s.take 8))).drop (8 * bytesToNat (s.take 8))) with
  | none => rw [hg] at h; simp only [] at h; cases h
  | some p =>
    obtain ⟨lbl, s5⟩ := p
    rw [hg] at h
    simp only [] at h
    have hl := get_cstring_some_len hg
    simp only [List.length_drop] at hl
    repeat' split at h
    all_goals try cases h
    all_goals constructor
    all_goals try omega
    all_goals refine ⟨_, rfl, ?_⟩
    all_goals intro c hc
    all_goals simp only [List.mem_singleton] at hc
    all_goals subst hc
    all_goals refine ⟨rfl, ?_⟩
    all_goals simp only [lensOk, chunk8_length, List.length_take, List.length_drop,
      beq_iff_eq, Bool.and_eq_true]
    all_goals omega

theorem pstepO_stop {s : List Nat} {st : St} {f : LoopEnd} {st' : St}
    (h : pstepO s st = .stop f st') : st' = st := by
  unfold pstepO at h
  cases hg : get_cstring s with
  | none => rw [hg] at h; simp only [] at h; cases h; rfl
  | some p =>
    obtain ⟨name, s1⟩ := p
    rw [hg] at h
    simp only [] at h
    split at h
    · cases s1 with
      | nil => simp only [] at h; cases h; rfl
      | cons t s2 =>
        simp only [] at h
        by_cases h128 : 128 ≤ t
        · rw [if_pos h128] at h; cases h; rfl
        rw [if_neg h128] at h
        by_cases hS : t = 83
        · rw [if_pos hS] at h
          cases hg2 : get_cstring s2 with
          | none => rw [hg2] at h; simp only [] at h; cases h; rfl
          | some q =>
            obtain ⟨v, s3⟩ := q
            rw [hg2] at h
            simp only [] at h
            split at h
            · cases h
            · cases h; rfl
        · rw [if_neg hS] at h
          repeat' split at h
          all_goals first | (cases h; rfl) | cases h
    · cases h; rfl

theorem pstepO_cont {s : List Nat} {st st' : St} {rest : List Nat}
    (h : pstepO s st = .cont st' rest) :
    rest.length ≤ s.length ∧
      ∃ t, st'.trace = st.trace ++ t ∧ ∀ c ∈ t, isLoopCall c = true ∧ lensOk c = true := by
  unfold pstepO at h
  cases hg : get_cstring s with
  | none => rw [hg] at h; simp only [] at h; cases h
  | some p =>
    obtain ⟨name, s1⟩ := p
    rw [hg] at h
    simp only [] at h
    have hl := get_cstring_some_len hg
    split at h
    · cases s1 with
      | nil => simp only [] at h; cases h
      | cons t s2 =>
        simp only [List.length_cons] at hl
        simp only [] at h
        by_cases h128 : 128 ≤ t
        · rw [if_pos h128] at h; cases h
        rw [if_neg h128] at h
        by_cases hS : t = 83
        · rw [if_pos hS] at h
          cases hg2 : get_cstring s2 with
          | none => rw [hg2] at h; simp only [] at h; cases h
          | some q =>
            obtain ⟨v, s3⟩ := q
            rw [hg2] at h
            simp only [] at h
            have hl2 := get_cstring_some_len hg2
            split at h
            · cases h
              refine ⟨by omega, [], by simp, by simp⟩
            · cases h
        · rw [if_neg hS] at h
          repeat' split at h
          all_goals try cases h
          all_goals refine ⟨?_, [], by simp, by simp⟩
          all_goals simp only [List.length_drop]
          all_goals omega
    · cases h

theorem plotStep_stop {b : Nat} {s : List Nat} {st : St} {f : LoopEnd} {st' : St}
    (h : plotStep b s st = .stop f st') : st' = st := by
  unfold plotStep at h
  repeat' split at h
  all_goals first
    | exact pstepP_stop h
    | exact pstepS_stop h
    | exact pstepE_stop h
    | exact pstepO_stop h
    | (cases h; rfl)
    | cases h

theorem plotStep_cont {b : Nat} {s : List Nat} {st st' : St} {rest : List Nat}
    (h : plotStep b s st = .cont st' rest) :
    rest.length ≤ s.length ∧
      ∃ t, st'.trace = st.trace ++ t ∧ ∀ c ∈ t, isLoopCall c = true ∧ lensOk c = true := by
  unfold plotStep at h
  repeat' split at h
  all_goals first
    | exact pstepP_cont h
    | exact pstepS_cont h
    | exact pstepE_cont h
    | exact pstepO_cont h
    | (cases h; exact ⟨le_refl _, [], by simp, by simp⟩)
    | cases h

theorem plotLoopF_congr : ∀ (f1 f2 b : Nat) (s : List Nat) (st : St),
    s.length < f1 → s.length < f2 → plotLoopF f1 b s st = plotLoopF f2 b s st := by
  intro f1
  induction f1 with
  | zero => intro f2 b s st h1 h2; omega
  | succ f1 ih =>
    intro f2 b s st h1 h2
    cases f2 with
    | zero => omega
    | succ f2 =>
      simp only [plotLoopF]
      cases hstep : plotStep b s st with
      | stop f st' => rfl
      | cont st' rest =>
        cases rest with
        | nil => rfl
        | cons t r =>
          have hle := (plotStep_cont hstep).1
          simp only [List.length_cons] at hle
          simp only []
          by_cases ht : t < 128
          · simp only [if_pos ht]
            exact ih f2 t r st' (by omega) (by omega)
          · simp only [if_neg ht]

theorem plotLoop_eq (b : Nat) (s : List Nat) (st : St) :
    plotLoop b s st =
      match plotStep b s st with
      | .stop f st' => ⟨f, st'⟩
      | .cont st' rest =>
        match rest with
        | [] => ⟨.clean, st'⟩
        | t :: r => if t < 128 then plotLoop t r st' else ⟨.exn, st'⟩ := by
  unfold plotLoop
  simp only [plotLoopF]
  cases hstep : plotStep b s st with
  | stop f st' => rfl
  | cont st' rest =>
    cases rest with
    | nil => rfl
    | cons t r =>
      have hle := (plotStep_cont hstep).1
      simp only [List.length_cons] at hle
      simp only []
      by_cases ht : t < 128
      · simp only [if_pos ht]
        exact plotLoopF_congr s.length (r.length + 1) t r st' (by omega) (by omega)
      · simp only [if_neg ht]

theorem plotLoopF_trace : ∀ (fuel b : Nat) (s : List Nat) (st : St),
    ∃ t, (plotLoopF fuel b s st).st.trace = st.trace ++ t ∧
      ∀ c ∈ t, isLoopCall c = true ∧ lensOk c = true := by
  intro fuel
  induction fuel with
  | zero => intro b s st; exact ⟨[], by simp [plotLoopF], by simp⟩
  | succ fuel ih =>
    intro b s st
    simp only [plotLoopF]
    cases hstep : plotStep b s st with
    | stop f st' =>
      have hst := plotStep_stop hstep
      subst hst
      exact ⟨[], by simp, by simp⟩
    | cont st' rest =>
      obtain ⟨-, t1, ht1, hok1⟩ := plotStep_cont hstep
      cases rest with
      | nil => exact ⟨t1, by simpa using ht1, hok1⟩
      | cons t r =>
        simp only []
        by_cases ht : t < 128
        · simp only [if_pos ht]
          obtain ⟨t2, ht2, hok2⟩ := ih t r st'
          refine ⟨t1 ++ t2, ?_, ?_⟩
          · rw [ht2, ht1, List.append_assoc]
          · intro c hc
            rcases List.mem_append.mp hc with hm | hm
            · exact hok1 c hm
            · exact hok2 c hm
        · simp only [if_neg ht]
          exact ⟨t1, ht1, hok1⟩

theorem plotLoop_trace (b : Nat) (s : List Nat) (st : St) :
    ∃ t, (plotLoop b s st).st.trace = st.trace ++ t ∧
      ∀ c ∈ t, isLoopCall c = true ∧ lensOk c = true :=
  plotLoopF_trace _ b s st

theorem labelsLoopF_trace : ∀ (fuel b : Nat) (s : List Nat) (st : St),
    ∃ t, (labelsLoopF fuel b s st).st.trace = st.trace ++ t ∧
      ∀ c ∈ t, isLoopCall c = true ∧ lensOk c = true := by
  intro fuel
  induction fuel with
  | zero => intro b s st; exact ⟨[], by simp [labelsLoopF], by simp⟩
  | succ fuel ih =>
    intro b s st
    simp only [labelsLoopF]
    by_cases hb : b = 88 ∨ b = 89 ∨ b = 84
    · simp only [if_pos hb]
      cases hg : get_cstring s with
      | none => exact ⟨[], by simp, by simp⟩
      | some p =>
        obtain ⟨lbl, rest⟩ := p
        simp only []
        by_cases hu : utf8Ok lbl = true
        · simp only [if_pos hu]
          have hcall : isLoopCall
              (if b = 88 then Call.xlabel lbl else if b = 89 then Call.ylabel lbl
               else Call.title lbl) = true ∧
              lensOk (if b = 88 then Call.xlabel lbl else if b = 89 then Call.ylabel lbl
               else Call.title lbl) = true := by
            constructor <;> (split <;> (try split) <;> rfl)
          by_cases hlen : 0 < lbl.length
          · simp only [if_pos hlen]
            cases rest with
            | nil =>
              exact ⟨[if b = 88 then Call.xlabel lbl else if b = 89 then Call.ylabel lbl
                else Call.title lbl], by simp, by simpa using hcall⟩
            | cons t r =>
              simp only []
              by_cases ht : t < 128
              · simp only [if_pos ht]
                obtain ⟨t2, ht2, hok2⟩ := ih t r _
                refine ⟨[if b = 88 then Call.xlabel lbl else if b = 89 then Call.ylabel lbl
                  else Call.title lbl] ++ t2, ?_, ?_⟩
                · rw [ht2]
                  simp
                · intro c hc
                  rcases List.mem_append.mp hc with hm | hm
                  · simp only [List.mem_singleton] at hm
                    subst hm
                    exact hcall
                  · exact hok2 c hm
              · simp only [if_neg ht]
                exact ⟨[if b = 88 then Call.xlabel lbl else if b = 89 then Call.ylabel lbl
                  else Call.title lbl], by simp, by simpa using hcall⟩
          · simp only [if_neg hlen]
            cases rest with
            | nil => exact ⟨[], by simp, by simp⟩
            | cons t r =>
              simp only []
              by_cases ht : t < 128
              · simp only [if_pos ht]
                exact ih t r st
              · simp only [if_neg ht]
                exact ⟨[], by simp, by simp⟩
        · simp only [if_neg hu]
          exact ⟨[], by simp, by simp⟩
    · simp only [if_neg hb]
      exact plotLoop_trace b s st

theorem labelsLoop_trace (b : Nat) (s : List Nat) (st : St) :
    ∃ t, (labelsLoop b s st).st.trace = st.trace ++ t ∧
      ∀ c ∈ t, isLoopCall c = true ∧ lensOk c = true :=
  labelsLoopF_trace _ b s st

theorem labelsLoopF_congr : ∀ (f1 f2 b : Nat) (s : List Nat) (st : St),
    s.length < f1 → s.length < f2 → labelsLoopF f1 b s st = labelsLoopF f2 b s st := by
  intro f1
  induction f1 with
  | zero => intro f2 b s st h1 h2; omega
  | succ f1 ih =>
    intro f2 b s st h1 h2
    cases f2 with
    | zero => omega
    | succ f2 =>
      simp only [labelsLoopF]
      by_cases hb : b = 88 ∨ b = 89 ∨ b = 84
      · simp only [if_pos hb]
        cases hg : get_cstring s with
        | none => rfl
        | some p =>
          obtain ⟨lbl, rest⟩ := p
          have hlt := get_cstring_some_len hg
          simp only []
          by_cases hu : utf8Ok lbl = true
          · simp only [if_pos hu]
            cases rest with
            | nil => rfl
            | cons t r =>
              simp only [List.length_cons] at hlt
              simp only []
              by_cases ht : t < 128
              · simp only [if_pos ht]
                exact ih f2 t r _ (by omega) (by omega)
              · simp only [if_neg ht]
          · simp only [if_neg hu]
      · simp only [if_neg hb]

theorem labelsLoop_eq (b : Nat) (s : List Nat) (st : St) :
    labelsLoop b s st =
      if b = 88 ∨ b = 89 ∨ b = 84 then
        match get_cstring s with
        | none => ⟨.hang, st⟩
        | some (lbl, rest) =>
          if utf8Ok lbl then
            let st' : St :=
              if 0 < lbl.length then
                ⟨st.arguments, st.trace ++
                  [if b = 88 then Call.xlabel lbl else if b = 89 then Call.ylabel lbl
                   else Call.title lbl]⟩
              else st
            match rest with
            | [] => ⟨.clean, st'⟩
            | t :: r => if t < 128 then labelsLoop t r st' else ⟨.exn, st'⟩
          else ⟨.exn, st⟩
      else plotLoop b s st := by
  unfold labelsLoop
  simp only [labelsLoopF]
  by_cases hb : b = 88 ∨ b = 89 ∨ b = 84
  · simp only [if_pos hb]
    cases hg : get_cstring s with
    | none => rfl
    | some p =>
      obtain ⟨lbl, rest⟩ := p
      have hlt := get_cstring_some_len hg
      simp only []
      by_cases hu : utf8Ok lbl = true
      · simp only [if_pos hu]
        cases rest with
        | nil => rfl
        | cons t r =>
          simp only [List.length_cons] at hlt
          simp only []
          by_cases ht : t < 128
          · simp only [if_pos ht]
            exact labelsLoopF_congr s.length (r.length + 1) t r _ (by omega) (by omega)
          · simp only [if_neg ht]
      · simp only [if_neg hu]
  · simp only [if_neg hb]

theorem labels_records_handoff : ∀ (recs : List (Nat × List Nat)) (tag : Nat)
    (pl : List Nat) (t : Nat) (rest : List Nat) (st : St),
    (tag = 88 ∨ tag = 89 ∨ tag = 84) → (0 : Nat) ∉ pl → utf8Ok pl = true →
    labelRecOk recs → t < 128 → ¬(t = 88 ∨ t = 89 ∨ t = 84) →
    ∃ st', labelsLoop tag (pl ++ 0 :: (labelRecBytes recs ++ t :: rest)) st =
      plotLoop t rest st' ∧ st'.arguments = st.arguments := by
  intro recs
  induction recs with
  | nil =>
    intro tag pl t rest st htag hpl0 hplu _ ht hnt
    rw [labelsLoop_eq, if_pos htag]
    simp only [labelRecBytes, List.nil_append]
    rw [get_cstring_append (t :: rest) hpl0]
    simp only [hplu, if_true]
    rw [if_pos ht, labelsLoop_eq, if_neg hnt]
    refine ⟨_, rfl, ?_⟩
    split
    · rfl
    · rfl
  | cons r2 rs ih =>
    intro tag pl t rest st htag hpl0 hplu hrec ht hnt
    obtain ⟨tag2, pl2⟩ := r2
    have hrec2 := hrec (tag2, pl2) (List.mem_cons_self _ _)
    have hs : labelRecBytes ((tag2, pl2) :: rs) ++ t :: rest =
        tag2 :: (pl2 ++ 0 :: (labelRecBytes rs ++ t :: rest)) := by
      simp [labelRecBytes, List.append_assoc]
    rw [labelsLoop_eq, if_pos htag, hs, get_cstring_append _ hpl0]
    simp only [hplu, if_true]
    have htag2lt : tag2 < 128 := by
      rcases hrec2.1 with h | h | h <;> omega
    rw [if_pos htag2lt]
    obtain ⟨st2, hst2, harg⟩ := ih tag2 pl2 t rest _ hrec2.1 hrec2.2.1 hrec2.2.2
      (fun r hr => hrec r (List.mem_cons_of_mem _ hr)) ht hnt
    refine ⟨st2, hst2, ?_⟩
    rw [harg]
    split
    · rfl
    · rfl

theorem master_trivial (o : Outcome) (ho : o ≠ .saved) (lp : Option (List Nat)) :
    MasterShape ⟨o, lp, []⟩ :=
  ⟨[], by simp [goodTrace], Or.inr ⟨ho, rfl⟩⟩

theorem master_fig (w h : Nat) (lp : Option (List Nat)) :
    MasterShape ⟨.exn, lp, [Call.figure w h]⟩ := by
  refine ⟨[Call.figure w h], ?_, Or.inr ⟨by simp, rfl⟩⟩
  intro c hc
  simp only [List.mem_singleton] at hc
  subst hc
  exact ⟨rfl, rfl⟩

theorem finish_master (path : List Nat) (run : RunOut)
    (hok : ∀ c ∈ run.st.trace, isLoopCall c = true ∧ lensOk c = true) :
    MasterShape (finishImage path run) := by
  unfold finishImage
  cases hfin : run.fin with
  | clean =>
    simp only []
    by_cases hp : 0 < path.length
    · simp only [if_pos hp]
      exact ⟨run.st.trace, hok, Or.inl ⟨path, rfl, rfl, hp, rfl⟩⟩
    · simp only [if_neg hp]
      exact ⟨run.st.trace, hok, Or.inr ⟨by simp, rfl⟩⟩
  | invalid => exact ⟨run.st.trace, hok, Or.inr ⟨by simp, rfl⟩⟩
  | exn => exact ⟨run.st.trace, hok, Or.inr ⟨by simp, rfl⟩⟩
  | hang => exact ⟨run.st.trace, hok, Or.inr ⟨by simp, rfl⟩⟩

theorem make_image_master (s : List Nat) : MasterShape (make_image s) := by
  unfold make_image
  cases s with
  | nil => exact master_trivial _ (by decide) _
  | cons b r =>
    by_cases h1 : 128 ≤ b
    · simp only [if_pos h1]
      exact master_trivial _ (by decide) _
    simp only [if_neg h1]
    by_cases h2 : b = 115
    · simp only [if_pos h2]
      cases hg : get_cstring r with
      | none => exact master_trivial _ (by decide) _
      | some p =>
        obtain ⟨path, r1⟩ := p
        simp only []
        by_cases h3 : utf8Ok path = true
        · simp only [if_pos h3]
          cases r1 with
          | nil => exact master_trivial _ (by decide) _
          | cons c r2 =>
            simp only []
            by_cases h4 : 128 ≤ c
            · simp only [if_pos h4]
              exact master_trivial _ (by decide) _
            simp only [if_neg h4]
            by_cases h5 : c = 68
            · simp only [if_pos h5]
              by_cases h6 : r2.length < 16
              · simp only [if_pos h6]
                exact master_trivial _ (by decide) _
              simp only [if_neg h6]
              cases hd : r2.drop 16 with
              | nil =>
                apply finish_master
                intro c2 hc
                simp only [List.mem_singleton] at hc
                subst hc
                exact ⟨rfl, rfl⟩
              | cons t r4 =>
                simp only []
                by_cases h7 : t < 128
                · simp only [if_pos h7]
                  apply finish_master
                  obtain ⟨t2, ht2, hok2⟩ := labelsLoop_trace t r4
                    ⟨[], [Call.figure (bytesToNat (r2.take 8)) (bytesToNat ((r2.drop 8).take 8))]⟩
                  intro c2 hc
                  rw [ht2] at hc
                  rcases List.mem_append.mp hc with hm | hm
                  · simp only [List.mem_singleton] at hm
                    subst hm
                    exact ⟨rfl, rfl⟩
                  · exact hok2 c2 hm
                · simp only [if_neg h7]
                  exact master_fig _ _ _
            · simp only [if_neg h5]
              exact master_trivial _ (by decide) _
        · simp only [if_neg h3]
          exact master_trivial _ (by decide) _
    · simp only [if_neg h2]
      exact master_trivial _ (by decide) _

theorem dictSet_hasKey (d : OptDict) (k : List Nat) (v : OptVal) :
    dictHasKey (dictSet d k v) k = true := by
  unfold dictSet
  by_cases hd : dictHasKey d k
  · rw [if_pos hd]
    unfold dictHasKey at hd ⊢
    rw [List.any_eq_true] at hd ⊢
    obtain ⟨q, hq, hqk⟩ := hd
    refine ⟨(k, v), List.mem_map.mpr ⟨q, hq, ?_⟩, by simp⟩
    simp only [decide_eq_true_eq] at hqk
    simp [hqk]
  · rw [if_neg hd]
    unfold dictHasKey
    simp [List.any_append]

theorem pstep_R_eq (s : List Nat) (st : St) :
    plotStep 82 s st = .cont ⟨[], st.trace⟩ s := rfl

theorem pstep_unknown {b : Nat} (s : List Nat) (st : St)
    (hb : b ∉ ([80, 83, 69, 79, 82] : List Nat)) :
    plotStep b s st = .stop .invalid st := by
  simp only [List.mem_cons, List.not_mem_nil, or_false, not_or] at hb
  obtain ⟨h1, h2, h3, h4, h5⟩ := hb
  unfold plotStep
  rw [if_neg h1, if_neg h2, if_neg h3, if_neg h4, if_neg h5]

theorem pstep_P_emit (st : St) (szb xb yb lbl rest : List Nat)
    (hsz : szb.length = 8) (hx : xb.length = 8 * bytesToNat szb)
    (hy : yb.length = 8 * bytesToNat szb) (hl0 : (0 : Nat) ∉ lbl)
    (hlu : utf8Ok lbl = true) (hnc : dictHasKey st.arguments labelKey = false) :
    plotStep 80 (szb ++ (xb ++ (yb ++ (lbl ++ 0 :: rest)))) st =
      .cont ⟨st.arguments, st.trace ++
        [Call.plot (chunk8 xb) (chunk8 yb) (if 0 < lbl.length then some lbl else none)
          st.arguments]⟩ rest := by
  have hdisp : plotStep 80 (szb ++ (xb ++ (yb ++ (lbl ++ 0 :: rest)))) st =
      pstepP (szb ++ (xb ++ (yb ++ (lbl ++ 0 :: rest)))) st := rfl
  rw [hdisp]
  unfold pstepP
  have hlen : ¬ (szb ++ (xb ++ (yb ++ (lbl ++ 0 :: rest)))).length < 8 := by
    simp [List.length_append, hsz]
  rw [if_neg hlen]
  simp only []
  rw [List.take_left' hsz, List.drop_left' hsz, List.take_left' hx, List.drop_left' hx,
    List.take_left' hy, List.drop_left' hy, get_cstring_append rest hl0]
  simp only [hlu, if_true]
  by_cases hl : 0 < lbl.length
  · rw [if_pos hl, if_pos hl]
    simp only [hnc, Bool.false_eq_true, if_false]
  · rw [if_neg hl, if_neg hl]

theorem pstep_E_emit (st : St) (szb xb yb zb lbl rest : List Nat)
    (hsz : szb.length = 8) (hx : xb.length = 8 * bytesToNat szb)
    (hy : yb.length = 8 * bytesToNat szb) (hz : zb.length = 8 * bytesToNat szb)
    (hl0 : (0 : Nat) ∉ lbl) (hlu : utf8Ok lbl = true)
    (hcx : dictHasKey st.arguments xKey = false)
    (hcy : dictHasKey st.arguments yKey = false)
    (hcz : dictHasKey st.arguments yerrKey = false)
    (hnc : dictHasKey st.arguments labelKey = false) :
    plotStep 69 (szb ++ (xb ++ (yb ++ (zb ++ (lbl ++ 0 :: rest))))) st =
      .cont ⟨st.arguments, st.trace ++
        [Call.errorbar (chunk8 xb) (chunk8 yb) (chunk8 zb)
          (if 0 < lbl.length then some lbl else none) st.arguments]⟩ rest := by
  have hdisp : plotStep 69 (szb ++ (xb ++ (yb ++ (zb ++ (lbl ++ 0 :: rest))))) st =
      pstepE (szb ++ (xb ++ (yb ++ (zb ++ (lbl ++ 0 :: rest))))) st := rfl
  rw [hdisp]
  unfold pstepE
  have hlen : ¬ (szb ++ (xb ++ (yb ++ (zb ++ (lbl ++ 0 :: rest))))).length < 8 := by
    simp [List.length_append, hsz]
  rw [if_neg hlen]
  simp only []
  rw [List.take_left' hsz, List.drop_left' hsz, List.take_left' hx, List.drop_left' hx,
    List.take_left' hy, List.drop_left' hy, List.take_left' hz, List.drop_left' hz,
    get_cstring_append rest hl0]
  simp only [hlu, if_true]
  by_cases hl : 0 < lbl.length
  · rw [if_pos hl, if_pos hl]
    simp only [hcx, hcy, hcz, hnc, Bool.or_self, Bool.false_eq_true, if_false]
  · rw [if_neg hl, if_neg hl]
    simp only [hcx, hcy, hcz, Bool.or_self, Bool.false_eq_true, if_false]

theorem pstep_S_emit (st : St) (szb xb yb lbl rest : List Nat)
    (hsz : szb.length = 8) (hx : xb.length = 8 * bytesToNat szb)
    (hy : yb.length = 8 * bytesToNat szb) (hl0 : (0 : Nat) ∉ lbl)
    (hlu : utf8Ok lbl = true)
    (hcx : dictHasKey st.arguments xKey = false)
    (hcy : dictHasKey st.arguments yKey = false)
    (hnc : dictHasKey st.arguments labelKey = false) :
    plotStep 83 (szb ++ (xb ++ (yb ++ (lbl ++ 0 :: rest)))) st =
      .cont ⟨st.arguments, st.trace ++
        [Call.scatter (chunk8 xb) (chunk8 yb)
          (if 0 < lbl.length then some lbl else none) st.arguments]⟩ rest := by
  have hdisp : plotStep 83 (szb ++ (xb ++ (yb ++ (lbl ++ 0 :: rest)))) st =
      pstepS (szb ++ (xb ++ (yb ++ (lbl ++ 0 :: rest)))) st := rfl
  rw [hdisp]
  unfold pstepS
  have hlen : ¬ (szb ++ (xb ++ (yb ++ (lbl ++ 0 :: rest)))).length < 8 := by
    simp [List.length_append, hsz]
  rw [if_neg hlen]
  simp only []
  rw [List.take_left' hsz, List.drop_left' hsz, List.take_left' hx, List.drop_left' hx,
    List.take_left' hy, List.drop_left' hy, get_cstring_append rest hl0]
  simp only [hlu, if_true]
  by_cases hl : 0 < lbl.length
  · rw [if_pos hl, if_pos hl]
    simp only [hcx, hcy, hnc, Bool.or_self, Bool.false_eq_true, if_false]
  · rw [if_neg hl, if_neg hl]
    simp only [hcx, hcy, Bool.or_self, Bool.false_eq_true, if_false]

theorem pstep_O_some (st : St) (name : List Nat) (ty : Nat) (payload rest : List Nat)
    (hn0 : (0 : Nat) ∉ name) (hnu : utf8Ok name = true) (hty : optPayloadOk ty payload) :
    ∃ v, plotStep 79 (name ++ 0 :: ty :: (payload ++ rest)) st =
      .cont ⟨dictSet st.arguments name v, st.trace⟩ rest := by
  have hdisp : plotStep 79 (name ++ 0 :: ty :: (payload ++ rest)) st =
      pstepO (name ++ 0 :: ty :: (payload ++ rest)) st := rfl
  rw [hdisp]
  unfold pstepO
  rw [get_cstring_append (ty :: (payload ++ rest)) hn0]
  simp only [hnu, if_true]
  rcases hty with ⟨hty, v, hpl, hv0, hvu⟩ | ⟨hty, hpl⟩ | ⟨hty, hpl⟩
  · subst hty
    subst hpl
    refine ⟨.str v, ?_⟩
    have hvr : (v ++ [0]) ++ rest = v ++ 0 :: rest := by simp
    rw [hvr]
    simp only [show ¬ (128 ≤ 83) by decide, if_false, if_true,
      get_cstring_append rest hv0, hvu]
  · subst hty
    refine ⟨.int (bytesToNat payload), ?_⟩
    simp only [show ¬ (128 ≤ 73) by decide, if_false, show (73 : Nat) ≠ 83 by decide, if_true]
    rw [List.take_left' hpl, List.drop_left' hpl]
  · subst hty
    refine ⟨.float (bytesToNat payload), ?_⟩
    simp only [show ¬ (128 ≤ 68) by decide, if_false, show (68 : Nat) ≠ 83 by decide,
      show (68 : Nat) ≠ 73 by decide, if_true]
    have hlen : ¬ (payload ++ rest).length < 8 := by simp [List.length_append, hpl]
    rw [if_neg hlen, List.take_left' hpl, List.drop_left' hpl]

theorem pstep_O_int (st : St) (name : List Nat) (b0 b1 b2 b3 : Nat) (rest : List Nat)
    (hn0 : (0 : Nat) ∉ name) (hnu : utf8Ok name = true) :
    plotStep 79 (name ++ 0 :: 73 :: b0 :: b1 :: b2 :: b3 :: rest) st =
      .cont ⟨dictSet st.arguments name (.int (bytesToNat [b0, b1, b2, b3])), st.trace⟩ rest := by
  have hdisp : plotStep 79 (name ++ 0 :: 73 :: b0 :: b1 :: b2 :: b3 :: rest) st =
      pstepO (name ++ 0 :: 73 :: b0 :: b1 :: b2 :: b3 :: rest) st := rfl
  rw [hdisp]
  unfold pstepO
  rw [get_cstring_append (73 :: b0 :: b1 :: b2 :: b3 :: rest) hn0]
  simp only [hnu, if_true, show ¬ (128 ≤ 73) by decide, if_false,
    show (73 : Nat) ≠ 83 by decide]
  rfl

theorem pstep_P_coll (st : St) (szb xb yb lbl rest : List Nat)
    (hsz : szb.length = 8) (hx : xb.length = 8 * bytesToNat szb)
    (hy : yb.length = 8 * bytesToNat szb) (hl0 : (0 : Nat) ∉ lbl)
    (hlu : utf8Ok lbl = true) (hlne : lbl ≠ [])
    (hk : dictHasKey st.arguments labelKey = true) :
    plotStep 80 (szb ++ (xb ++ (yb ++ (lbl ++ 0 :: rest)))) st = .stop .exn st := by
  have hdisp : plotStep 80 (szb ++ (xb ++ (yb ++ (lbl ++ 0 :: rest)))) st =
      pstepP (szb ++ (xb ++ (yb ++ (lbl ++ 0 :: rest)))) st := rfl
  rw [hdisp]
  unfold pstepP
  have hlen : ¬ (szb ++ (xb ++ (yb ++ (lbl ++ 0 :: rest)))).length < 8 := by
    simp [List.length_append, hsz]
  rw [if_neg hlen]
  simp only []
  rw [List.take_left' hsz, List.drop_left' hsz, List.take_left' hx, List.drop_left' hx,
    List.take_left' hy, List.drop_left' hy, get_cstring_append rest hl0]
  simp only [hlu, if_true, if_pos (List.length_pos.mpr hlne), hk]

theorem pstep_S_coll (st : St) (szb xb yb lbl rest : List Nat)
    (hsz : szb.length = 8) (hx : xb.length = 8 * bytesToNat szb)
    (hy : yb.length = 8 * bytesToNat szb) (hl0 : (0 : Nat) ∉ lbl)
    (hlu : utf8Ok lbl = true) (hlne : lbl ≠ [])
    (hk : dictHasKey st.arguments labelKey = true) :
    plotStep 83 (szb ++ (xb ++ (yb ++ (lbl ++ 0 :: rest)))) st = .stop .exn st := by
  have hdisp : plotStep 83 (szb ++ (xb ++ (yb ++ (lbl ++ 0 :: rest)))) st =
      pstepS (szb ++ (xb ++ (yb ++ (lbl ++ 0 :: rest)))) st := rfl
  rw [hdisp]
  unfold pstepS
  have hlen : ¬ (szb ++ (xb ++ (yb ++ (lbl ++ 0 :: rest)))).length < 8 := by
    simp [List.length_append, hsz]
  rw [if_neg hlen]
  simp only []
  rw [List.take_left' hsz, List.drop_left' hsz, List.take_left' hx, List.drop_left' hx,
    List.take_left' hy, List.drop_left' hy, get_cstring_append rest hl0]
  simp only [hlu, if_true, if_pos (List.length_pos.mpr hlne), hk, Bool.or_true, if_true]

theorem pstep_E_coll (st : St) (szb xb yb zb lbl rest : List Nat)
    (hsz : szb.length = 8) (hx : xb.length = 8 * bytesToNat szb)
    (hy : yb.length = 8 * bytesToNat szb) (hz : zb.length = 8 * bytesToNat szb)
    (hl0 : (0 : Nat) ∉ lbl) (hlu : utf8Ok lbl = true) (hlne : lbl ≠ [])
    (hk : dictHasKey st.arguments labelKey = true) :
    plotStep 69 (szb ++ (xb ++ (yb ++ (zb ++ (lbl ++ 0 :: rest))))) st = .stop .exn st := by
  have hdisp : plotStep 69 (szb ++ (xb ++ (yb ++ (zb ++ (lbl ++ 0 :: rest))))) st =
      pstepE (szb ++ (xb ++ (yb ++ (zb ++ (lbl ++ 0 :: rest))))) st := rfl
  rw [hdisp]
  unfold pstepE
  have hlen : ¬ (szb ++ (xb ++ (yb ++ (zb ++ (lbl ++ 0 :: rest))))).length < 8 := by
    simp [List.length_append, hsz]
  rw [if_neg hlen]
  simp only []
  rw [List.take_left' hsz, List.drop_left' hsz, List.take_left' hx, List.drop_left' hx,
    List.take_left' hy, List.drop_left' hy, List.take_left' hz, List.drop_left' hz,
    get_cstring_append rest hl0]
  simp only [hlu, if_true, if_pos (List.length_pos.mpr hlne), hk, Bool.or_true, if_true]

theorem loop_after_O_R (st : St) (name : List Nat) (ty : Nat) (payload : List Nat)
    (k : Nat) (rest2 : List Nat) (hn0 : (0 : Nat) ∉ name) (hnu : utf8Ok name = true)
    (hty : optPayloadOk ty payload) (hk : k < 128) :
    plotLoop 79 (name ++ 0 :: ty :: (payload ++ 82 :: k :: rest2)) st =
      plotLoop k rest2 ⟨[], st.trace⟩ := by
  obtain ⟨v, hO⟩ := pstep_O_some st name ty payload (82 :: k :: rest2) hn0 hnu hty
  rw [plotLoop_eq, hO]
  simp only []
  rw [if_pos (show (82 : Nat) < 128 by norm_num)]
  rw [plotLoop_eq, pstep_R_eq]
  simp only []
  rw [if_pos hk]

theorem cont_trace_ext (st2 : St) (rest : List Nat) (base : List Call) (c : Call)
    (h : st2.trace = base ++ [c]) :
    ∃ t, (match rest with
          | [] => (⟨.clean, st2⟩ : RunOut)
          | t2 :: r2 => if t2 < 128 then plotLoop t2 r2 st2 else ⟨.exn, st2⟩).st.trace =
      base ++ c :: t := by
  cases rest with
  | nil => exact ⟨[], by simp [h]⟩
  | cons t2 r2 =>
    simp only []
    by_cases ht2 : t2 < 128
    · rw [if_pos ht2]
      obtain ⟨t3, ht3, -⟩ := plotLoop_trace t2 r2 st2
      refine ⟨t3, ?_⟩
      rw [ht3, h]
      simp
    · rw [if_neg ht2]
      exact ⟨[], by simp [h]⟩


/-- C1: on a stream whose `P` record declares `n = 5` but holds only 3
float64 values, the code does not return a `FormatError` (and does not
return a short series either): the arrays consume the whole remainder of
the stream and the following `get_cstring` label read spins forever at
EOF, so `make_image` hangs with no series call ever issued. -/
theorem C1_truncated_array_hangs :
    make_image exC1 = ⟨.hang, some [112], [Call.figure 0 0]⟩ := by decide

/-- C2: on a stream that ends before the null terminator of a string
payload (here the save path after the `s` tag), the code does not
terminate with a format error: `get_cstring` loops forever reading empty
bytes, so `make_image` hangs. -/
theorem C2_truncated_cstring_hangs :
    make_image exC2 = ⟨.hang, none, []⟩ := by decide

/-- C3 counterexample: on `exC3` no series carries a non-empty label, yet
the driver still issues a legend call, refuting the claim that a legend is
requested only when at least one series has a non-empty label. -/
theorem C3_counterexample :
    Call.legend ∈ (make_image exC3).trace ∧
      ∀ c ∈ (make_image exC3).trace, hasNonemptyLabel c = false := by decide

/-- C3 amended: the driver requests a legend if and only if the run ends
in a save (clean decode with a non-empty save path), regardless of
whether any series carries a non-empty label. -/
theorem C3_amended_legend_iff_saved (s : List Nat) :
    Call.legend ∈ (make_image s).trace ↔ (make_image s).outcome = .saved := by
  obtain ⟨u, hok, hcase | hcase⟩ := make_image_master s
  · obtain ⟨p, ho, hlp, hple, htr⟩ := hcase
    rw [htr, ho]
    constructor
    · intro _
      rfl
    · intro _
      simp [List.mem_append]
  · obtain ⟨ho, htr⟩ := hcase
    rw [htr]
    constructor
    · intro hmem
      have hbad := (hok _ hmem).1
      simp [isLoopCall] at hbad
    · intro hsaved
      exact absurd hsaved ho

/-- C4 counterexample: the option integer payload `FF FF FF FF` is stored
as 4294967295, not as the signed value -1, refuting the claim that the
4-byte payload is decoded as a signed 32-bit integer. -/
theorem C4_counterexample :
    make_image exC4 = ⟨.notSaved, some [],
      [Call.figure 0 0, Call.plot [] [] none [([99], OptVal.int 4294967295)]]⟩ ∧
      OptVal.int 4294967295 ≠ OptVal.int (-1) := ⟨by decide, by decide⟩

/-- C4 amended: the `I` payload of an `O` record is decoded as an
unsigned 32-bit little-endian integer (`int.from_bytes` without a signed
flag): the stored value is the little-endian value of the 4 bytes, always
in `[0, 2^32)`; in particular `FF FF FF FF` gives 4294967295. -/
theorem C4_amended_unsigned_int (st : St) (name : List Nat) (b0 b1 b2 b3 : Nat)
    (rest : List Nat) (hn0 : (0 : Nat) ∉ name) (hnu : utf8Ok name = true)
    (h0 : b0 < 256) (h1 : b1 < 256) (h2 : b2 < 256) (h3 : b3 < 256) :
    plotStep 79 (name ++ 0 :: 73 :: b0 :: b1 :: b2 :: b3 :: rest) st =
      .cont ⟨dictSet st.arguments name (.int (bytesToNat [b0, b1, b2, b3])), st.trace⟩ rest ∧
    bytesToNat [b0, b1, b2, b3] = b0 + 256 * (b1 + 256 * (b2 + 256 * b3)) ∧
    (0 : Int) ≤ (bytesToNat [b0, b1, b2, b3] : Int) ∧
    ((bytesToNat [b0, b1, b2, b3] : Int) < 4294967296) := by
  refine ⟨pstep_O_int st name b0 b1 b2 b3 rest hn0 hnu, ?_, ?_, ?_⟩
  · simp [bytesToNat]
  · exact Int.ofNat_nonneg _
  · have hb : bytesToNat [b0, b1, b2, b3] < 4294967296 := by
      simp only [bytesToNat]
      omega
    exact_mod_cast hb

/-- Witness for C4 amended at the counterexample payload. -/
theorem C4_amended_unsigned_int_witness :
    plotStep 79 ([99] ++ 0 :: 73 :: 255 :: 255 :: 255 :: 255 :: []) ⟨[], []⟩ =
      .cont ⟨dictSet [] [99] (.int (bytesToNat [255, 255, 255, 255])), []⟩ [] ∧
    bytesToNat [255, 255, 255, 255] = 255 + 256 * (255 + 256 * (255 + 256 * 255)) ∧
    (0 : Int) ≤ (bytesToNat [255, 255, 255, 255] : Int) ∧
    ((bytesToNat [255, 255, 255, 255] : Int) < 4294967296) :=
  C4_amended_unsigned_int ⟨[], []⟩ [99] 255 255 255 255 [] (by decide) (by decide)
    (by decide) (by decide) (by decide) (by decide)

/-- C5: an `O` record, then an `R` record, then a series record of any of
the three kinds (`P`, `S`, `E`) yield a series whose captured option set
is empty: `R` clears the accumulator and the snapshot taken when the
series is emitted reflects the cleared state, whatever options were
pending before. -/
theorem C5_reset_clears_options :
    (∀ (st : St) (name : List Nat) (ty : Nat) (payload szb xb yb lbl rest : List Nat),
      (0 : Nat) ∉ name → utf8Ok name = true → optPayloadOk ty payload →
      szb.length = 8 → xb.length = 8 * bytesToNat szb → yb.length = 8 * bytesToNat szb →
      (0 : Nat) ∉ lbl → utf8Ok lbl = true →
      ∃ t, (plotLoop 79 (name ++ 0 :: ty :: (payload ++ 82 :: 80 ::
          (szb ++ (xb ++ (yb ++ (lbl ++ 0 :: rest)))))) st).st.trace =
        st.trace ++ Call.plot (chunk8 xb) (chunk8 yb)
          (if 0 < lbl.length then some lbl else none) [] :: t) ∧
    (∀ (st : St) (name : List Nat) (ty : Nat) (payload szb xb yb lbl rest : List Nat),
      (0 : Nat) ∉ name → utf8Ok name = true → optPayloadOk ty payload →
      szb.length = 8 → xb.length = 8 * bytesToNat szb → yb.length = 8 * bytesToNat szb →
      (0 : Nat) ∉ lbl → utf8Ok lbl = true →
      ∃ t, (plotLoop 79 (name ++ 0 :: ty :: (payload ++ 82 :: 83 ::
          (szb ++ (xb ++ (yb ++ (lbl ++ 0 :: rest)))))) st).st.trace =
        st.trace ++ Call.scatter (chunk8 xb) (chunk8 yb)
          (if 0 < lbl.length then some lbl else none) [] :: t) ∧
    (∀ (st : St) (name : List Nat) (ty : Nat) (payload szb xb yb zb lbl rest : List Nat),
      (0 : Nat) ∉ name → utf8Ok name = true → optPayloadOk ty payload →
      szb.length = 8 → xb.length = 8 * bytesToNat szb → yb.length = 8 * bytesToNat szb →
      zb.length = 8 * bytesToNat szb → (0 : Nat) ∉ lbl → utf8Ok lbl = true →
      ∃ t, (plotLoop 79 (name ++ 0 :: ty :: (payload ++ 82 :: 69 ::
          (szb ++ (xb ++ (yb ++ (zb ++ (lbl ++ 0 :: rest))))))) st).st.trace =
        st.trace ++ Call.errorbar (chunk8 xb) (chunk8 yb) (chunk8 zb)
          (if 0 < lbl.length then some lbl else none) [] :: t) := by
  refine ⟨?_, ?_, ?_⟩
  · intro st name ty payload szb xb yb lbl rest hn0 hnu hty hsz hx hy hl0 hlu
    rw [loop_after_O_R st name ty payload 80 (szb ++ (xb ++ (yb ++ (lbl ++ 0 :: rest))))
      hn0 hnu hty (by norm_num)]
    rw [plotLoop_eq, pstep_P_emit ⟨[], st.trace⟩ szb xb yb lbl rest hsz hx hy hl0 hlu rfl]
    simp only []
    exact cont_trace_ext _ rest st.trace _ rfl
  · intro st name ty payload szb xb yb lbl rest hn0 hnu hty hsz hx hy hl0 hlu
    rw [loop_after_O_R st name ty payload 83 (szb ++ (xb ++ (yb ++ (lbl ++ 0 :: rest))))
      hn0 hnu hty (by norm_num)]
    rw [plotLoop_eq,
      pstep_S_emit ⟨[], st.trace⟩ szb xb yb lbl rest hsz hx hy hl0 hlu rfl rfl rfl]
    simp only []
    exact cont_trace_ext _ rest st.trace _ rfl
  · intro st name ty payload szb xb yb zb lbl rest hn0 hnu hty hsz hx hy hz hl0 hlu
    rw [loop_after_O_R st name ty payload 69
      (szb ++ (xb ++ (yb ++ (zb ++ (lbl ++ 0 :: rest))))) hn0 hnu hty (by norm_num)]
    rw [plotLoop_eq, pstep_E_emit ⟨[], st.trace⟩ szb xb yb zb lbl rest hsz hx hy hz
      hl0 hlu rfl rfl rfl rfl]
    simp only []
    exact cont_trace_ext _ rest st.trace _ rfl

/-- Witness for C5: an `O` record named `d`, an `R`, then a one-point
series record with label `q`, for each of the three series kinds,
starting from a state that already holds a pending option; the emitted
series always carries an empty option set. -/
theorem C5_reset_clears_options_witness :
    (∃ t, (plotLoop 79 ([100] ++ 0 :: 73 :: ([1, 2, 3, 4] ++ 82 :: 80 ::
        ([1, 0, 0, 0, 0, 0, 0, 0] ++ (zs 8 ++ (zs 8 ++ ([113] ++ 0 :: []))))))
        ⟨[([99], OptVal.int 7)], []⟩).st.trace =
      [] ++ Call.plot (chunk8 (zs 8)) (chunk8 (zs 8))
        (if 0 < ([113] : List Nat).length then some [113] else none) [] :: t) ∧
    (∃ t, (plotLoop 79 ([100] ++ 0 :: 73 :: ([1, 2, 3, 4] ++ 82 :: 83 ::
        ([1, 0, 0, 0, 0, 0, 0, 0] ++ (zs 8 ++ (zs 8 ++ ([113] ++ 0 :: []))))))
        ⟨[([99], OptVal.int 7)], []⟩).st.trace =
      [] ++ Call.scatter (chunk8 (zs 8)) (chunk8 (zs 8))
        (if 0 < ([113] : List Nat).length then some [113] else none) [] :: t) ∧
    (∃ t, (plotLoop 79 ([100] ++ 0 :: 73 :: ([1, 2, 3, 4] ++ 82 :: 69 ::
        ([1, 0, 0, 0, 0, 0, 0, 0] ++ (zs 8 ++ (zs 8 ++ (zs 8 ++ ([113] ++ 0 :: [])))))))
        ⟨[([99], OptVal.int 7)], []⟩).st.trace =
      [] ++ Call.errorbar (chunk8 (zs 8)) (chunk8 (zs 8)) (chunk8 (zs 8))
        (if 0 < ([113] : List Nat).length then some [113] else none) [] :: t) :=
  ⟨C5_reset_clears_options.1 ⟨[([99], OptVal.int 7)], []⟩ [100] 73 [1, 2, 3, 4]
      [1, 0, 0, 0, 0, 0, 0, 0] (zs 8) (zs 8) [113] [] (by decide) (by decide)
      (Or.inr (Or.inl ⟨rfl, by decide⟩)) (by decide) (by decide) (by decide)
      (by decide) (by decide),
   C5_reset_clears_options.2.1 ⟨[([99], OptVal.int 7)], []⟩ [100] 73 [1, 2, 3, 4]
      [1, 0, 0, 0, 0, 0, 0, 0] (zs 8) (zs 8) [113] [] (by decide) (by decide)
      (Or.inr (Or.inl ⟨rfl, by decide⟩)) (by decide) (by decide) (by decide)
      (by decide) (by decide),
   C5_reset_clears_options.2.2 ⟨[([99], OptVal.int 7)], []⟩ [100] 73 [1, 2, 3, 4]
      [1, 0, 0, 0, 0, 0, 0, 0] (zs 8) (zs 8) (zs 8) [113] [] (by decide) (by decide)
      (Or.inr (Or.inl ⟨rfl, by decide⟩)) (by decide) (by decide) (by decide)
      (by decide) (by decide) (by decide)⟩

/-- C6: the first tag after the dimensions record that is not `X`, `Y` or
`T` ends the labels phase and that same byte is dispatched as the first
plotting-phase tag over the unchanged remaining stream: the labels loop
hands exactly its current byte and stream to the plotting loop; on a full
stream with no label records the decode equals the plotting loop entered
at that byte; and after any sequence of well-formed label records the
loop still reaches the plotting loop at exactly the first non-label tag
with exactly the remaining stream, the option accumulator untouched. -/
theorem C6_phase_handoff :
    (∀ (b : Nat) (s : List Nat) (st : St), ¬(b = 88 ∨ b = 89 ∨ b = 84) →
        labelsLoop b s st = plotLoop b s st) ∧
    (∀ (path d16 : List Nat) (t : Nat) (rest : List Nat),
        (0 : Nat) ∉ path → utf8Ok path = true → d16.length = 16 →
        t < 128 → ¬(t = 88 ∨ t = 89 ∨ t = 84) →
        make_image (115 :: (path ++ 0 :: 68 :: (d16 ++ t :: rest))) =
          finishImage path (plotLoop t rest
            ⟨[], [Call.figure (bytesToNat (d16.take 8))
              (bytesToNat ((d16.drop 8).take 8))]⟩)) ∧
    (∀ (recs : List (Nat × List Nat)) (tag : Nat) (pl : List Nat) (t : Nat)
        (rest : List Nat) (st : St),
        (tag = 88 ∨ tag = 89 ∨ tag = 84) → (0 : Nat) ∉ pl → utf8Ok pl = true →
        labelRecOk recs → t < 128 → ¬(t = 88 ∨ t = 89 ∨ t = 84) →
        ∃ st', labelsLoop tag (pl ++ 0 :: (labelRecBytes recs ++ t :: rest)) st =
          plotLoop t rest st' ∧ st'.arguments = st.arguments) := by
  have hA : ∀ (b : Nat) (s : List Nat) (st : St), ¬(b = 88 ∨ b = 89 ∨ b = 84) →
      labelsLoop b s st = plotLoop b s st := by
    intro b s st hb
    unfold labelsLoop
    simp only [labelsLoopF, if_neg hb]
  refine ⟨hA, ?_, ?_⟩
  · intro path d16 t rest hp0 hpu hd16 ht hnb
    unfold make_image
    simp only []
    rw [if_neg (show ¬ (128 ≤ 115) by norm_num)]
    rw [if_pos trivial]
    rw [get_cstring_append (68 :: (d16 ++ t :: rest)) hp0]
    simp only [hpu, if_true]
    have hlen : ¬ (d16 ++ t :: rest).length < 16 := by simp [List.length_append, hd16]
    rw [if_neg hlen, List.drop_left' hd16]
    simp only []
    rw [if_pos ht, hA t rest _ hnb]
    have htk : (d16 ++ t :: rest).take 8 = d16.take 8 :=
      List.take_append_of_le_length (by omega)
    have hdp : ((d16 ++ t :: rest).drop 8).take 8 = (d16.drop 8).take 8 := by
      rw [List.drop_append_of_le_length (by omega)]
      exact List.take_append_of_le_length (by simp [hd16])
    rw [htk, hdp]
    rw [if_neg (show ¬ ((128 : Nat) ≤ 68) by norm_num)]
  · intro recs tag pl t rest st htag hpl0 hplu hrec ht hnt
    exact labels_records_handoff recs tag pl t rest st htag hpl0 hplu hrec ht hnt

/-- Witness for C6: tag `P` right after the dimensions record, both at
the loop level and through `make_image`, and preceded by an `X` record
with payload `a` and a `Y` record with payload `b`. -/
theorem C6_phase_handoff_witness :
    labelsLoop 80 [] ⟨[], []⟩ = plotLoop 80 [] ⟨[], []⟩ ∧
    make_image (115 :: ([112] ++ 0 :: 68 :: (zs 16 ++ 80 :: []))) =
      finishImage [112] (plotLoop 80 []
        ⟨[], [Call.figure (bytesToNat ((zs 16).take 8))
          (bytesToNat (((zs 16).drop 8).take 8))]⟩) ∧
    (∃ st', labelsLoop 88 ([97] ++ 0 :: (labelRecBytes [(89, [98])] ++ 80 :: []))
        ⟨[], []⟩ = plotLoop 80 [] st' ∧
      st'.arguments = (⟨[], []⟩ : St).arguments) :=
  ⟨C6_phase_handoff.1 80 [] ⟨[], []⟩ (by decide),
   C6_phase_handoff.2.1 [112] (zs 16) 80 [] (by decide) (by decide) (by decide)
     (by decide) (by decide),
   C6_phase_handoff.2.2 [(89, [98])] 88 [97] 80 [] ⟨[], []⟩ (by decide) (by decide)
     (by decide)
     (by intro r hr
         simp only [List.mem_singleton] at hr
         subst hr
         exact ⟨by decide, by decide, by decide⟩)
     (by decide) (by decide)⟩

/-- C7 counterexample: the byte `0xFF` at a plotting-phase tag position
(after a complete `R` record) is not one of `P` `S` `E` `O` `R`, yet the
code does not fail with its FormatError signal (the `return False` the
boolean interface uses for invalid bytes): `f.read(1).decode('utf-8')`
raises a `UnicodeDecodeError` first, so the call raises instead of
returning the failure value. -/
theorem C7_counterexample :
    make_image exC7 = ⟨.exn, some [112], [Call.figure 0 0]⟩ ∧
      pyReturn (make_image exC7).outcome = none ∧
      (make_image exC7).outcome ≠ Outcome.invalid := ⟨by decide, by decide, by decide⟩

/-- C7 amended: a byte that is none of `P` `S` `E` `O` `R` at a
plotting-phase tag position aborts the decode at once with no series
after that byte in any result: a byte below `0x80` takes the early
`return False` (the boolean FormatError signal) with the state exactly as
before the byte, for every continuation of the stream, and the save
section reports the failure without saving; a byte at or above `0x80` is
rejected while the tag is UTF-8 decoded, aborting with a
`UnicodeDecodeError` and the state exactly as after the last complete
record, again with nothing after the byte consumed and no save. -/
theorem C7_unknown_tag :
    (∀ (z : Nat) (s : List Nat) (st : St) (path : List Nat), z < 128 →
        z ∉ ([80, 83, 69, 79, 82] : List Nat) →
        plotLoop z s st = ⟨.invalid, st⟩ ∧
          finishImage path (plotLoop z s st) = ⟨.invalid, some path, st.trace⟩) ∧
    (∀ (z : Nat) (r : List Nat) (b : Nat) (s : List Nat) (st st' : St) (path : List Nat),
        128 ≤ z → plotStep b s st = .cont st' (z :: r) →
        plotLoop b s st = ⟨.exn, st'⟩ ∧
          finishImage path (plotLoop b s st) = ⟨.exn, some path, st'.trace⟩) := by
  constructor
  · intro z s st path hz128 hz
    have h1 : plotLoop z s st = ⟨.invalid, st⟩ := by
      rw [plotLoop_eq, pstep_unknown s st hz]
    refine ⟨h1, ?_⟩
    rw [h1]
    rfl
  · intro z r b s st st' path hz hstep
    have h1 : plotLoop b s st = ⟨.exn, st'⟩ := by
      rw [plotLoop_eq, hstep]
      simp only []
      rw [if_neg (by omega)]
    refine ⟨h1, ?_⟩
    rw [h1]
    rfl

/-- Witness for C7: the byte `Z` (90) with stream continuation `[1,2,3]`
after one already-drawn figure call, and the byte `0xFF` read as the next
tag right after a complete `R` record. -/
theorem C7_unknown_tag_witness :
    (plotLoop 90 [1, 2, 3] ⟨[], [Call.figure 0 0]⟩ =
        ⟨.invalid, ⟨[], [Call.figure 0 0]⟩⟩ ∧
      finishImage [112] (plotLoop 90 [1, 2, 3] ⟨[], [Call.figure 0 0]⟩) =
        ⟨.invalid, some [112], [Call.figure 0 0]⟩) ∧
    (plotLoop 82 [255] ⟨[], []⟩ = ⟨.exn, ⟨[], []⟩⟩ ∧
      finishImage [112] (plotLoop 82 [255] ⟨[], []⟩) = ⟨.exn, some [112], []⟩) :=
  ⟨C7_unknown_tag.1 90 [1, 2, 3] ⟨[], [Call.figure 0 0]⟩ [112] (by decide) (by decide),
   C7_unknown_tag.2 255 [] 82 [255] ⟨[], []⟩ ⟨[], []⟩ [112] (by decide) (by decide)⟩

/-- C8: in every terminating run each drawn series has arrays of equal
length, and a complete `P` (resp. `E`) series record reads one single
uint64 length prefix and produces two (resp. two, three) arrays of
exactly that length, consuming the prefix once for the whole record. -/
theorem C8_equal_lengths_single_size :
    (∀ (s : List Nat) (b : Bool) (c : Call), pyReturn (make_image s).outcome = some b →
        c ∈ (make_image s).trace → lensOk c = true) ∧
    (∀ (st : St) (szb xb yb lbl rest : List Nat), szb.length = 8 →
        xb.length = 8 * bytesToNat szb → yb.length = 8 * bytesToNat szb →
        (0 : Nat) ∉ lbl → utf8Ok lbl = true → dictHasKey st.arguments labelKey = false →
        plotStep 80 (szb ++ (xb ++ (yb ++ (lbl ++ 0 :: rest)))) st =
          .cont ⟨st.arguments, st.trace ++ [Call.plot (chunk8 xb) (chunk8 yb)
            (if 0 < lbl.length then some lbl else none) st.arguments]⟩ rest ∧
        (chunk8 xb).length = bytesToNat szb ∧ (chunk8 yb).length = bytesToNat szb) ∧
    (∀ (st : St) (szb xb yb lbl rest : List Nat), szb.length = 8 →
        xb.length = 8 * bytesToNat szb → yb.length = 8 * bytesToNat szb →
        (0 : Nat) ∉ lbl → utf8Ok lbl = true →
        dictHasKey st.arguments xKey = false → dictHasKey st.arguments yKey = false →
        dictHasKey st.arguments labelKey = false →
        plotStep 83 (szb ++ (xb ++ (yb ++ (lbl ++ 0 :: rest)))) st =
          .cont ⟨st.arguments, st.trace ++ [Call.scatter (chunk8 xb) (chunk8 yb)
            (if 0 < lbl.length then some lbl else none) st.arguments]⟩ rest ∧
        (chunk8 xb).length = bytesToNat szb ∧ (chunk8 yb).length = bytesToNat szb) ∧
    (∀ (st : St) (szb xb yb zb lbl rest : List Nat), szb.length = 8 →
        xb.length = 8 * bytesToNat szb → yb.length = 8 * bytesToNat szb →
        zb.length = 8 * bytesToNat szb → (0 : Nat) ∉ lbl → utf8Ok lbl = true →
        dictHasKey st.arguments xKey = false → dictHasKey st.arguments yKey = false →
        dictHasKey st.arguments yerrKey = false →
        dictHasKey st.arguments labelKey = false →
        plotStep 69 (szb ++ (xb ++ (yb ++ (zb ++ (lbl ++ 0 :: rest))))) st =
          .cont ⟨st.arguments, st.trace ++
            [Call.errorbar (chunk8 xb) (chunk8 yb) (chunk8 zb)
              (if 0 < lbl.length then some lbl else none) st.arguments]⟩ rest ∧
        (chunk8 xb).length = bytesToNat szb ∧ (chunk8 yb).length = bytesToNat szb ∧
        (chunk8 zb).length = bytesToNat szb) := by
  refine ⟨?_, ?_, ?_, ?_⟩
  · intro s b c _ hc
    obtain ⟨u, hok, hcase | hcase⟩ := make_image_master s
    · obtain ⟨p, -, -, -, htr⟩ := hcase
      rw [htr] at hc
      rcases List.mem_append.mp hc with hm | hm
      · exact (hok _ hm).2
      · simp only [List.mem_cons, List.not_mem_nil, or_false, List.mem_singleton] at hm
        rcases hm with hm | hm <;> subst hm <;> rfl
    · rw [hcase.2] at hc
      exact (hok _ hc).2
  · intro st szb xb yb lbl rest hsz hx hy hl0 hlu hnc
    refine ⟨pstep_P_emit st szb xb yb lbl rest hsz hx hy hl0 hlu hnc, ?_, ?_⟩
    · rw [chunk8_length, hx]
      omega
    · rw [chunk8_length, hy]
      omega
  · intro st szb xb yb lbl rest hsz hx hy hl0 hlu hcx hcy hnc
    refine ⟨pstep_S_emit st szb xb yb lbl rest hsz hx hy hl0 hlu hcx hcy hnc, ?_, ?_⟩
    · rw [chunk8_length, hx]
      omega
    · rw [chunk8_length, hy]
      omega
  · intro st szb xb yb zb lbl rest hsz hx hy hz hl0 hlu hcx hcy hcz hnc
    refine ⟨pstep_E_emit st szb xb yb zb lbl rest hsz hx hy hz hl0 hlu hcx hcy hcz hnc,
      ?_, ?_, ?_⟩
    · rw [chunk8_length, hx]
      omega
    · rw [chunk8_length, hy]
      omega
    · rw [chunk8_length, hz]
      omega

/-- Witness for C8: the `P` series of `exC3` in a full run, and concrete
one-point `P`, `S` and `E` records. -/
theorem C8_equal_lengths_single_size_witness :
    lensOk (Call.plot [] [] none []) = true ∧
    (plotStep 80 ([1, 0, 0, 0, 0, 0, 0, 0] ++ (zs 8 ++ (zs 8 ++ ([] ++ 0 :: []))))
        ⟨[], []⟩ =
      .cont ⟨[], [] ++ [Call.plot (chunk8 (zs 8)) (chunk8 (zs 8))
        (if 0 < ([] : List Nat).length then some [] else none) []]⟩ [] ∧
      (chunk8 (zs 8)).length = bytesToNat [1, 0, 0, 0, 0, 0, 0, 0] ∧
      (chunk8 (zs 8)).length = bytesToNat [1, 0, 0, 0, 0, 0, 0, 0]) ∧
    (plotStep 83 ([1, 0, 0, 0, 0, 0, 0, 0] ++ (zs 8 ++ (zs 8 ++ ([] ++ 0 :: []))))
        ⟨[], []⟩ =
      .cont ⟨[], [] ++ [Call.scatter (chunk8 (zs 8)) (chunk8 (zs 8))
        (if 0 < ([] : List Nat).length then some [] else none) []]⟩ [] ∧
      (chunk8 (zs 8)).length = bytesToNat [1, 0, 0, 0, 0, 0, 0, 0] ∧
      (chunk8 (zs 8)).length = bytesToNat [1, 0, 0, 0, 0, 0, 0, 0]) ∧
    (plotStep 69 ([1, 0, 0, 0, 0, 0, 0, 0] ++ (zs 8 ++ (zs 8 ++ (zs 8 ++ ([] ++ 0 :: [])))))
        ⟨[], []⟩ =
      .cont ⟨[], [] ++ [Call.errorbar (chunk8 (zs 8)) (chunk8 (zs 8)) (chunk8 (zs 8))
        (if 0 < ([] : List Nat).length then some [] else none) []]⟩ [] ∧
      (chunk8 (zs 8)).length = bytesToNat [1, 0, 0, 0, 0, 0, 0, 0] ∧
      (chunk8 (zs 8)).length = bytesToNat [1, 0, 0, 0, 0, 0, 0, 0] ∧
      (chunk8 (zs 8)).length = bytesToNat [1, 0, 0, 0, 0, 0, 0, 0]) :=
  ⟨C8_equal_lengths_single_size.1 exC3 true (Call.plot [] [] none [])
      (by decide) (by decide),
   C8_equal_lengths_single_size.2.1 ⟨[], []⟩ [1, 0, 0, 0, 0, 0, 0, 0] (zs 8) (zs 8) [] []
      (by decide) (by decide) (by decide) (by decide) (by decide) (by decide),
   C8_equal_lengths_single_size.2.2.1 ⟨[], []⟩ [1, 0, 0, 0, 0, 0, 0, 0] (zs 8) (zs 8)
      [] [] (by decide) (by decide) (by decide) (by decide) (by decide) (by decide)
      (by decide) (by decide),
   C8_equal_lengths_single_size.2.2.2 ⟨[], []⟩ [1, 0, 0, 0, 0, 0, 0, 0] (zs 8) (zs 8)
      (zs 8) [] [] (by decide) (by decide) (by decide) (by decide) (by decide) (by decide)
      (by decide) (by decide) (by decide) (by decide)⟩

/-- C9: whenever the decoded save path is the empty string and the call
returns normally, the return value is `False` and no save call was
issued; the empty path is not an error. -/
theorem C9_empty_savepath (s : List Nat) (b : Bool)
    (hpath : (make_image s).localPath = some [])
    (hret : pyReturn (make_image s).outcome = some b) :
    b = false ∧ ∀ p, Call.savefig p ∉ (make_image s).trace := by
  obtain ⟨u, hok, hcase | hcase⟩ := make_image_master s
  · obtain ⟨p, ho, hlp, hple, htr⟩ := hcase
    rw [hlp] at hpath
    injection hpath with hp
    subst hp
    simp at hple
  · obtain ⟨ho, htr⟩ := hcase
    constructor
    · cases ho2 : (make_image s).outcome with
      | saved => exact absurd ho2 ho
      | notSaved =>
        rw [ho2] at hret
        simp [pyReturn] at hret
        exact hret
      | invalid =>
        rw [ho2] at hret
        simp [pyReturn] at hret
        exact hret
      | exn =>
        rw [ho2] at hret
        simp [pyReturn] at hret
      | hang =>
        rw [ho2] at hret
        simp [pyReturn] at hret
    · intro p hmem
      rw [htr] at hmem
      have hbad := (hok _ hmem).1
      simp [isLoopCall] at hbad

/-- Witness for C9: the stream `s` `""` `D` with zero dimensions and a
clean end of stream. -/
theorem C9_empty_savepath_witness :
    (make_image (115 :: 0 :: 68 :: zs 16)).localPath = some [] ∧
    pyReturn (make_image (115 :: 0 :: 68 :: zs 16)).outcome = some false ∧
    (false = false ∧ ∀ p, Call.savefig p ∉ (make_image (115 :: 0 :: 68 :: zs 16)).trace) :=
  ⟨by decide, by decide, C9_empty_savepath (115 :: 0 :: 68 :: zs 16) false
    (by decide) (by decide)⟩

/-- C10: after an `O` record has set an option named exactly `label`, a
following series record with a non-empty label fails with the duplicate
keyword `TypeError` instead of drawing: the run ends in the exception with
no series appended to the trace, and the `S` and `E` handlers likewise
step to the exception with the state unchanged. -/
theorem C10_label_option_collision (st : St) (b0 b1 b2 b3 : Nat)
    (szb xb yb lbl rest : List Nat)
    (hsz : szb.length = 8) (hx : xb.length = 8 * bytesToNat szb)
    (hy : yb.length = 8 * bytesToNat szb) (hl0 : (0 : Nat) ∉ lbl)
    (hlu : utf8Ok lbl = true) (hlne : lbl ≠ []) :
    plotLoop 79 (labelKey ++ 0 :: 73 :: b0 :: b1 :: b2 :: b3 ::
        (80 :: (szb ++ (xb ++ (yb ++ (lbl ++ 0 :: rest)))))) st =
      ⟨.exn, ⟨dictSet st.arguments labelKey (.int (bytesToNat [b0, b1, b2, b3])),
        st.trace⟩⟩ ∧
    (∀ st2 : St, dictHasKey st2.arguments labelKey = true →
      plotStep 83 (szb ++ (xb ++ (yb ++ (lbl ++ 0 :: rest)))) st2 = .stop .exn st2) ∧
    (∀ (st2 : St) (zb : List Nat), zb.length = 8 * bytesToNat szb →
      dictHasKey st2.arguments labelKey = true →
      plotStep 69 (szb ++ (xb ++ (yb ++ (zb ++ (lbl ++ 0 :: rest))))) st2 =
        .stop .exn st2) := by
  refine ⟨?_, ?_, ?_⟩
  · rw [plotLoop_eq, pstep_O_int st labelKey b0 b1 b2 b3 _ (by decide) (by decide)]
    simp only []
    rw [if_pos (show (80 : Nat) < 128 by norm_num)]
    rw [plotLoop_eq, pstep_P_coll _ szb xb yb lbl rest hsz hx hy hl0 hlu hlne
      (dictSet_hasKey _ _ _)]
  · intro st2 hk
    exact pstep_S_coll st2 szb xb yb lbl rest hsz hx hy hl0 hlu hlne hk
  · intro st2 zb hzb hk
    exact pstep_E_coll st2 szb xb yb zb lbl rest hsz hx hy hzb hl0 hlu hlne hk

/-- Witness for C10: option `label` set to the integer 1, then a `P`
record with one point and label `q`. -/
theorem C10_label_option_collision_witness :
    plotLoop 79 (labelKey ++ 0 :: 73 :: 1 :: 0 :: 0 :: 0 ::
        (80 :: ([1, 0, 0, 0, 0, 0, 0, 0] ++ (zs 8 ++ (zs 8 ++ ([113] ++ 0 :: []))))))
        ⟨[], []⟩ =
      ⟨.exn, ⟨dictSet [] labelKey (.int (bytesToNat [1, 0, 0, 0])), []⟩⟩ ∧
    (∀ st2 : St, dictHasKey st2.arguments labelKey = true →
      plotStep 83 ([1, 0, 0, 0, 0, 0, 0, 0] ++ (zs 8 ++ (zs 8 ++ ([113] ++ 0 :: []))))
        st2 = .stop .exn st2) ∧
    (∀ (st2 : St) (zb : List Nat), zb.length = 8 * bytesToNat [1, 0, 0, 0, 0, 0, 0, 0] →
      dictHasKey st2.arguments labelKey = true →
      plotStep 69 ([1, 0, 0, 0, 0, 0, 0, 0] ++ (zs 8 ++ (zs 8 ++ (zb ++ ([113] ++ 0 :: [])))))
        st2 = .stop .exn st2) :=
  C10_label_option_collision ⟨[], []⟩ 1 0 0 0 [1, 0, 0, 0, 0, 0, 0, 0] (zs 8) (zs 8)
    [113] [] (by decide) (by decide) (by decide) (by decide) (by decide) (by decide)

end Lightning
